import Mathlib

/-!
Shallow embedding of the geospatial visualization and search core of the
barangay election dashboard (React/Leaflet, TypeScript).

Modelling conventions:
* JavaScript numbers are modelled as exact rationals (`ℚ`) wherever only
  field arithmetic and comparisons occur, and as reals (`ℝ`) in the color
  functions, which apply `Math.sqrt`.
* The dynamic candidate-keyed vote fields `v_<candidateId>` of a feature's
  property record are modelled as an association list, with absence of the
  key matching an absent record field.
* `JS x || y` on numbers returns `y` exactly when `x` is falsy (here: `0`),
  and is modelled by an explicit zero test.
* `Math.round` is round-half-up, which is Mathlib's `round` (`⌊x + 1/2⌋`).
* Leaflet's `LatLngBounds` accumulator, which starts invalid and becomes
  valid once extended with a valid bounds, is modelled as `Option BBox`.
* `String.prototype.localeCompare` ordering on the (already lowercased)
  labels is modelled as the lexicographic order on Lean strings.
-/

namespace ElectionMap

/-- Property record of one feature (`types.ts`, `BarangayProperties`):
province `p`, municipality `m`, barangay `b`, registered voters `rv`,
actual voters `av`, and the candidate-keyed vote fields. -/
structure BarangayProperties where
  p : String
  m : String
  b : String
  rv : ℚ
  av : ℚ
  votes : List (String × ℚ)
deriving DecidableEq, Repr

/-- A valid axis-aligned geographic bounding box (the only information about
a feature's geometry the core consumes, via `L.geoJSON(feat).getBounds()`). -/
structure BBox where
  south : ℚ
  west : ℚ
  north : ℚ
  east : ℚ
deriving DecidableEq, Repr

/-- One GeoJSON feature: property record plus geometry, the latter reduced to
its bounding box; `none` models both an absent geometry and a geometry that
yields no valid bounds. -/
structure Feature where
  properties : BarangayProperties
  geometry : Option BBox
deriving DecidableEq, Repr

/-- The two kinds of search entry (`SearchBar.tsx`, `SearchResult.type`). -/
inductive EntryType where
  | municipality
  | barangay
deriving DecidableEq, Repr

/-- Search entry record (`SearchBar.tsx`, `interface SearchResult`). -/
structure SearchResult where
  label : String
  type : EntryType
  province : String
  municipality : String
  barangay : Option String := none
deriving DecidableEq, Repr

/-- The per-candidate statistic accessor `(props[`v_<cId>`] as number) ?? 0`
used in `ChoroplethLayer.tsx` (`computeMaxShare`, `getStyle`) and
`MapView.tsx` (`Tooltip`). -/
def statFor (props : BarangayProperties) (candidateId : String) : ℚ :=
  (props.votes.lookup ("v_" ++ candidateId)).getD 0

/-- The share accessor `av > 0 ? votes / av : 0` used in `getStyle` and
the tooltip. -/
def shareFor (props : BarangayProperties) (candidateId : String) : ℚ :=
  if 0 < props.av then statFor props candidateId / props.av else 0

/-- Loop body of `computeMaxShare` in `ChoroplethLayer.tsx`:
`if (av > 0) { const share = votes / av; if (share > max) max = share; }`. -/
def maxShareStep (candidateId : String) (m : ℚ) (f : Feature) : ℚ :=
  let votes := statFor f.properties candidateId
  let av := f.properties.av
  if 0 < av then
    let share := votes / av
    if m < share then share else m
  else m

/-- The running maximum computed by the scan loop of `computeMaxShare`,
before the `|| 1` floor is applied. -/
def observedMaxShare (fs : List Feature) (candidateId : String) : ℚ :=
  fs.foldl (maxShareStep candidateId) 0

/-- Function `computeMaxShare` in `ChoroplethLayer.tsx`: scan all features, then
`return max || 1` (the observed maximum unless it is `0`, in which case `1`). -/
def computeMaxShare (fs : List Feature) (candidateId : String) : ℚ :=
  let m := observedMaxShare fs candidateId
  if m = 0 then 1 else m

/-- The normalized share
`maxShareRef.current > 0 ? share / maxShareRef.current : 0` computed inside
`getStyle`. -/
def normalizedFor (maxShare : ℚ) (props : BarangayProperties)
    (candidateId : String) : ℚ :=
  if 0 < maxShare then shareFor props candidateId / maxShare else 0

/-- Match predicate of `getStyle` in `ChoroplethLayer.tsx`: municipality
selections compare municipality and province, barangay selections
additionally compare the barangay (`props.b === sel.barangay`, where the
selection's optional barangay field may be absent). -/
def styleMatch (props : BarangayProperties) (sel : SearchResult) : Bool :=
  match sel.type with
  | .municipality => props.m == sel.municipality && props.p == sel.province
  | .barangay =>
      some props.b == sel.barangay && props.m == sel.municipality
        && props.p == sel.province

/-- Match predicate of `MapZoomController` in `MapView.tsx`. -/
def zoomMatch (props : BarangayProperties) (sel : SearchResult) : Bool :=
  match sel.type with
  | .municipality => props.m == sel.municipality && props.p == sel.province
  | .barangay =>
      some props.b == sel.barangay && props.m == sel.municipality
        && props.p == sel.province

/-- Leaflet `bounds.extend(other)` on two valid boxes: componentwise union. -/
def BBox.union (u g : BBox) : BBox :=
  { south := min u.south g.south
    west := min u.west g.west
    north := max u.north g.north
    east := max u.east g.east }

/-- Loop body of `MapZoomController`:
`if (match && feat.geometry) bounds.extend(geoLayer.getBounds())`. -/
def boundsStep (sel : SearchResult) (acc : Option BBox) (f : Feature) :
    Option BBox :=
  match zoomMatch f.properties sel, f.geometry with
  | true, some g => some (match acc with | none => g | some u => u.union g)
  | _, _ => acc

/-- The bounds accumulated by `MapZoomController` over the collection,
starting from the invalid `L.latLngBounds([])` (modelled as `none`). -/
def selectionBounds (fs : List Feature) (sel : SearchResult) : Option BBox :=
  fs.foldl (boundsStep sel) none

/-- The viewport-fit instruction issued by `MapZoomController`:
`if (bounds.isValid()) map.fitBounds(bounds, padding [40, 40], maxZoom 16)`;
`none` means no viewport change. -/
def zoomInstruction (fs : List Feature) (sel : SearchResult) :
    Option (BBox × ℕ × ℕ × ℕ) :=
  match selectionBounds fs sel with
  | some b => some (b, 40, 40, 16)
  | none => none

/-- JS `String.prototype.toLowerCase`, modelled characterwise. -/
def toLowerStr (s : String) : String :=
  ⟨s.data.map Char.toLower⟩

/-- JS `String.prototype.trim`: strip leading and trailing whitespace. -/
def trimStr (s : String) : String :=
  ⟨((s.data.dropWhile Char.isWhitespace).reverse.dropWhile
      Char.isWhitespace).reverse⟩

/-- Split a character list at each whitespace character, keeping empty
chunks (the chunks between consecutive separators). -/
def splitWsAux : List Char → List Char → List (List Char)
  | acc, [] => [acc.reverse]
  | acc, c :: rest =>
      if c.isWhitespace then acc.reverse :: splitWsAux [] rest
      else splitWsAux (c :: acc) rest

/-- The municipality entry built for a feature's property record
(`SearchBar.tsx`, `searchIndex`): label `"<m>, <p>"` lowercased. -/
def mkMuni (props : BarangayProperties) : SearchResult :=
  { label := toLowerStr (props.m ++ ", " ++ props.p)
    type := .municipality
    province := props.p
    municipality := props.m }

/-- The barangay (leaf) entry built for a feature's property record:
label `"<b>, <m>, <p>"` lowercased. -/
def mkLeaf (props : BarangayProperties) : SearchResult :=
  { label := toLowerStr (props.b ++ ", " ++ props.m ++ ", " ++ props.p)
    type := .barangay
    province := props.p
    municipality := props.m
    barangay := some props.b }

/-- The municipality deduplication key of a built entry, mirroring
`muniKey` on the feature it was built from. -/
def entryKey (e : SearchResult) : String :=
  e.province ++ "|" ++ e.municipality

/-- The deduplication key `` `${p}|${m}` `` of the municipality map. -/
def muniKey (props : BarangayProperties) : String :=
  props.p ++ "|" ++ props.m

/-- The municipality entries in first-seen insertion order, deduplicated by
`muniKey` — the contents of the JS `Map` `muniSet` after the build loop,
in `values()` order. -/
def collectMunis (seen : List String) : List Feature → List SearchResult
  | [] => []
  | f :: fs =>
      if muniKey f.properties ∈ seen then collectMunis seen fs
      else mkMuni f.properties :: collectMunis (muniKey f.properties :: seen) fs

/-- The label comparator `(a, b) => a.label.localeCompare(b.label)`,
modelled as lexicographic string order. -/
def labelLe (a b : SearchResult) : Bool :=
  a.label ≤ b.label

/-- Sorting step `.sort((a, b) => a.label.localeCompare(b.label))`. -/
def sortByLabel (l : List SearchResult) : List SearchResult :=
  l.mergeSort labelLe

/-- Memo `searchIndex` in `SearchBar.tsx`: empty on an empty collection;
otherwise the deduplicated municipality entries sorted by label, followed by
the one-per-feature barangay entries sorted by label. -/
def buildIndex (fs : List Feature) : List SearchResult :=
  if fs.isEmpty then []
  else
    sortByLabel (collectMunis [] fs)
      ++ sortByLabel (fs.map fun f => mkLeaf f.properties)

/-- The token list of a query text: `text.toLowerCase().trim().split(/\s+/)`.
On a trimmed string, splitting on the whitespace-run regex yields exactly
the nonempty maximal whitespace-free chunks, i.e. the single-character split
with empty chunks discarded. -/
def tokensOf (text : String) : List String :=
  ((splitWsAux [] (trimStr (toLowerStr text)).data).map
      (fun l => String.mk l)).filter (fun s => s ≠ "")

/-- JS `String.prototype.includes`: `isSubOf t s` holds iff `t` occurs as a
contiguous substring of `s` (both as character lists). -/
def isSubOf (t : List Char) : List Char → Bool
  | [] => t.isEmpty
  | c :: rest => t.isPrefixOf (c :: rest) || isSubOf t rest

/-- The filter predicate of `results` in `SearchBar.tsx`:
`tokens.every((t) => label.includes(t))` with `label = item.label.toLowerCase()`. -/
def entryMatches (tokens : List String) (item : SearchResult) : Bool :=
  tokens.all fun t => isSubOf t.data (toLowerStr item.label).data

/-- Memo `results` in `SearchBar.tsx`: empty when the trimmed text is empty;
otherwise the index entries matching every token, in index order, truncated
to the first 50. -/
def query (index : List SearchResult) (text : String) : List SearchResult :=
  if trimStr text = "" then []
  else ((index.filter (entryMatches (tokensOf text))).take 50)

/-- Function `getFillColor` in `ChoroplethLayer.tsx` (single-hue mode), with the base
color already converted to its RGB channels (`hexToRgb`):
`t = sqrt(min(share, 1))`, `factor = 0.08 + t * (1 - 0.08)`, each channel
`Math.round(channel * factor)`. -/
noncomputable def getFillColor (share : ℝ) (c : ℕ × ℕ × ℕ) : ℤ × ℤ × ℤ :=
  let t := Real.sqrt (min share 1)
  let minBrightness : ℝ := 8 / 100
  let factor := minBrightness + t * (1 - minBrightness)
  (round ((c.1 : ℝ) * factor), round ((c.2.1 : ℝ) * factor),
    round ((c.2.2 : ℝ) * factor))

/-- The single-hue fill color as worded by the spec, for comparison with
`getFillColor`: `t = sqrt(clamp(normalizedValue, 0, 1))`, factor
`0.08 + t * 0.92`, output channel `round(baseChannel * factor)`. -/
noncomputable def specSingleHue (v : ℝ) (c : ℕ × ℕ × ℕ) : ℤ × ℤ × ℤ :=
  let t := Real.sqrt (max 0 (min v 1))
  let factor := 8 / 100 + t * (92 / 100)
  (round ((c.1 : ℝ) * factor), round ((c.2.1 : ℝ) * factor),
    round ((c.2.2 : ℝ) * factor))

/-- One multi-hue gradient stop `[position, r, g, b]`. -/
structure Stop where
  pos : ℝ
  r : ℝ
  g : ℝ
  b : ℝ

/-- Constant `MULTI_HUE_STOPS` in `ChoroplethLayer.tsx`. -/
noncomputable def MULTI_HUE_STOPS : List Stop :=
  [⟨0, 10, 10, 30⟩, ⟨3/20, 15, 60, 90⟩, ⟨3/10, 20, 120, 120⟩,
   ⟨9/20, 40, 170, 100⟩, ⟨3/5, 160, 200, 40⟩, ⟨3/4, 240, 180, 30⟩,
   ⟨9/10, 250, 100, 40⟩, ⟨1, 255, 240, 220⟩]

/-- The bracketing-stop scan in `getMultiHueFillColor`: the first consecutive
pair `(lo, hi)` of stops with `lo.pos <= t <= hi.pos`, if any. -/
noncomputable def findStops (t : ℝ) : List Stop → Option (Stop × Stop)
  | a :: b :: rest =>
      if a.pos ≤ t ∧ t ≤ b.pos then some (a, b) else findStops t (b :: rest)
  | _ => none

/-- Function `getMultiHueFillColor` in `ChoroplethLayer.tsx`: `t = sqrt(min(share, 1))`,
bracketing stops defaulting to the first and last stop, divide-by-zero guard
`range || 1`, linear channel interpolation, `Math.round` per channel. -/
noncomputable def getMultiHueFillColor (share : ℝ) : ℤ × ℤ × ℤ :=
  let t := Real.sqrt (min share 1)
  let dflt : Stop × Stop :=
    ((MULTI_HUE_STOPS.head?).getD ⟨0, 0, 0, 0⟩,
      (MULTI_HUE_STOPS.getLast?).getD ⟨0, 0, 0, 0⟩)
  let lohi := (findStops t MULTI_HUE_STOPS).getD dflt
  let lo := lohi.1
  let hi := lohi.2
  let range := if hi.pos - lo.pos = 0 then 1 else hi.pos - lo.pos
  let f := (t - lo.pos) / range
  (round (lo.r + (hi.r - lo.r) * f), round (lo.g + (hi.g - lo.g) * f),
    round (lo.b + (hi.b - lo.b) * f))

/-- The style record returned by `getStyle` (`L.PathOptions`), with the fill
color as RGB channels. -/
structure PathOptions where
  fillColor : ℤ × ℤ × ℤ
  fillOpacity : ℚ
  weight : ℚ
  color : String
  opacity : ℚ

/-- Function `getStyle` in `ChoroplethLayer.tsx` on a feature with a property record,
with the ref cells (`maxShareRef`, `candidateIdRef`, `colorRef`,
`highContrastRef`, `searchRef`) passed explicitly. -/
noncomputable def getStyle (maxShare : ℚ) (candidateId : String)
    (baseColor : ℕ × ℕ × ℕ) (highContrast : Bool) (sel : Option SearchResult)
    (props : BarangayProperties) : PathOptions :=
  let normalized := normalizedFor maxShare props candidateId
  let isMatch := match sel with
    | none => true
    | some s => styleMatch props s
  { fillColor :=
      if highContrast then getMultiHueFillColor (normalized : ℝ)
      else getFillColor (normalized : ℝ) baseColor
    fillOpacity :=
      match sel with
      | some _ => if isMatch then 9/10 else 3/20
      | none => 17/20
    weight := if sel.isSome && isMatch then 3/2 else 3/10
    color := if sel.isSome && isMatch then "#fff" else "#222"
    opacity := if sel.isSome && isMatch then 4/5 else 2/5 }

/-- Standard perceptual luminance `0.299 R + 0.587 G + 0.114 B` of an RGB
triple, as an exact rational. -/
def luminance (c : ℤ × ℤ × ℤ) : ℚ :=
  ((299 * c.1 + 587 * c.2.1 + 114 * c.2.2 : ℤ) : ℚ) / 1000

/-- A concrete property record used to instantiate the theorems: 1 vote for
candidate `c1` out of 2 actual voters. -/
def sampleProps : BarangayProperties :=
  { p := "pampanga", m := "angeles", b := "anunas", rv := 10, av := 2,
    votes := [("v_c1", 1)] }

/-- A concrete feature without geometry. -/
def sampleFeature : Feature := { properties := sampleProps, geometry := none }

/-- A concrete feature with a valid bounding box. -/
def geoFeature : Feature :=
  { properties := sampleProps, geometry := some ⟨14, 120, 15, 121⟩ }

/-- A municipality selection matching `sampleProps`. -/
def sampleSel : SearchResult :=
  { label := "angeles, pampanga", type := .municipality,
    province := "pampanga", municipality := "angeles" }

/-- A municipality selection matching nothing in the sample collection. -/
def noMatchSel : SearchResult :=
  { label := "quezon city, metro manila", type := .municipality,
    province := "metro manila", municipality := "quezon city" }

/-- A concrete property record with zero actual voters and no vote fields. -/
def zeroProps : BarangayProperties :=
  { p := "cebu", m := "argao", b := "bogo", rv := 5, av := 0, votes := [] }

/-! ### Properties of the share normalization -/

theorem le_maxShareStep (candidateId : String) (m : ℚ) (f : Feature) :
    m ≤ maxShareStep candidateId m f := by
  simp only [maxShareStep]
  split_ifs with h1 h2
  · exact le_of_lt h2
  · exact le_rfl
  · exact le_rfl

theorem le_foldl_maxShareStep (candidateId : String) (fs : List Feature) :
    ∀ acc : ℚ, acc ≤ fs.foldl (maxShareStep candidateId) acc := by
  induction fs with
  | nil => intro acc; simp
  | cons f fs ih =>
      intro acc
      rw [List.foldl_cons]
      exact le_trans (le_maxShareStep candidateId acc f) (ih _)

theorem observedMaxShare_nonneg (fs : List Feature) (candidateId : String) :
    0 ≤ observedMaxShare fs candidateId :=
  le_foldl_maxShareStep candidateId fs 0

theorem share_le_maxShareStep (candidateId : String) (m : ℚ) (f : Feature)
    (hav : 0 < f.properties.av) :
    statFor f.properties candidateId / f.properties.av
      ≤ maxShareStep candidateId m f := by
  simp only [maxShareStep]
  rw [if_pos hav]
  split_ifs with h
  · exact le_rfl
  · exact not_lt.mp h

theorem share_le_foldl_maxShareStep (candidateId : String) (fs : List Feature) :
    ∀ acc : ℚ, ∀ f ∈ fs, 0 < f.properties.av →
      statFor f.properties candidateId / f.properties.av
        ≤ fs.foldl (maxShareStep candidateId) acc := by
  induction fs with
  | nil => intro acc f hf; exact absurd hf (List.not_mem_nil f)
  | cons g gs ih =>
      intro acc f hf hav
      rw [List.foldl_cons]
      rcases List.mem_cons.mp hf with rfl | hmem
      · exact le_trans (share_le_maxShareStep candidateId acc f hav)
          (le_foldl_maxShareStep candidateId gs _)
      · exact ih _ f hmem hav

theorem shareFor_le_observedMaxShare (fs : List Feature) (candidateId : String)
    (f : Feature) (hf : f ∈ fs) :
    shareFor f.properties candidateId ≤ observedMaxShare fs candidateId := by
  by_cases hav : 0 < f.properties.av
  · have h := share_le_foldl_maxShareStep candidateId fs 0 f hf hav
    rw [shareFor, if_pos hav]
    exact h
  · rw [shareFor, if_neg hav]
    exact observedMaxShare_nonneg fs candidateId

theorem statFor_nonneg (props : BarangayProperties) (candidateId : String)
    (h : ∀ p ∈ props.votes, 0 ≤ p.2) : 0 ≤ statFor props candidateId := by
  unfold statFor
  cases hl : props.votes.lookup ("v_" ++ candidateId) with
  | none => simp
  | some v =>
      obtain ⟨l₁, l₂, hEq, -⟩ := List.lookup_eq_some_iff.mp hl
      have hmem : ("v_" ++ candidateId, v) ∈ props.votes := by
        rw [hEq]
        exact List.mem_append_right _ (List.mem_cons_self _ _)
      simpa using h _ hmem

theorem shareFor_nonneg (props : BarangayProperties) (candidateId : String)
    (h : ∀ p ∈ props.votes, 0 ≤ p.2) : 0 ≤ shareFor props candidateId := by
  rw [shareFor]
  split_ifs with hav
  · exact div_nonneg (statFor_nonneg props candidateId h) (le_of_lt hav)
  · exact le_rfl

theorem foldl_maxShareStep_all_zero (candidateId : String) (fs : List Feature)
    (h : ∀ f ∈ fs, f.properties.av = 0) :
    ∀ acc : ℚ, fs.foldl (maxShareStep candidateId) acc = acc := by
  induction fs with
  | nil => intro acc; rfl
  | cons g gs ih =>
      intro acc
      rw [List.foldl_cons]
      have hg : g.properties.av = 0 := h g (List.mem_cons_self g gs)
      have hstep : maxShareStep candidateId acc g = acc := by
        simp [maxShareStep, hg]
      rw [hstep]
      exact ih (fun f hf => h f (List.mem_cons_of_mem g hf)) acc

theorem statFor_sample : statFor sampleProps "c1" = 1 := by
  have h : ("v_" ++ "c1" : String) = "v_c1" := rfl
  simp [statFor, sampleProps, h]

theorem observedMaxShare_sample :
    observedMaxShare [sampleFeature] "c1" = 1/2 := by
  have h : maxShareStep "c1" 0 sampleFeature = 1/2 := by
    rw [maxShareStep]
    simp only [sampleFeature, statFor_sample]
    norm_num [sampleProps]
  simp [observedMaxShare, h]

theorem computeMaxShare_sample :
    computeMaxShare [sampleFeature] "c1" = 1/2 := by
  rw [computeMaxShare]
  norm_num [observedMaxShare_sample]

/-- Claim **C1** (counterexample): over the one-feature collection holding 1 vote
out of 2 actual voters, `computeMaxShare` returns the observed maximum `1/2`,
which differs from the claimed `max(observedMax, 1) = 1`. -/
theorem computeMaxShare_ne_max_floor :
    computeMaxShare [sampleFeature] "c1" = 1/2
  ∧ computeMaxShare [sampleFeature] "c1"
      ≠ max (observedMaxShare [sampleFeature] "c1") 1 := by
  refine ⟨computeMaxShare_sample, ?_⟩
  rw [computeMaxShare_sample, observedMaxShare_sample,
    max_eq_right (by norm_num : (1/2 : ℚ) ≤ 1)]
  norm_num

/-- Claim **C1** (amended): `computeMaxShare` scans every feature once, tracking
the running maximum of `votes / actualVoters` over features with
`actualVoters > 0` (so the observed maximum is nonnegative and dominates
every feature's share); it returns the observed maximum when that is nonzero
and the epsilon floor `1` otherwise — in particular, over a collection where
every feature has `actualVoters = 0` it returns exactly `1`, with no
division by zero. -/
theorem computeMaxShare_characterization (fs : List Feature)
    (candidateId : String) :
    (observedMaxShare fs candidateId ≠ 0 →
      computeMaxShare fs candidateId = observedMaxShare fs candidateId)
  ∧ (observedMaxShare fs candidateId = 0 → computeMaxShare fs candidateId = 1)
  ∧ 0 ≤ observedMaxShare fs candidateId
  ∧ (∀ f ∈ fs,
      shareFor f.properties candidateId ≤ observedMaxShare fs candidateId)
  ∧ ((∀ f ∈ fs, f.properties.av = 0) → computeMaxShare fs candidateId = 1) := by
  refine ⟨?_, ?_, observedMaxShare_nonneg fs candidateId,
    fun f hf => shareFor_le_observedMaxShare fs candidateId f hf, ?_⟩
  · intro h; simp [computeMaxShare, h]
  · intro h; simp [computeMaxShare, h]
  · intro h
    have hz : observedMaxShare fs candidateId = 0 :=
      foldl_maxShareStep_all_zero candidateId fs h 0
    simp [computeMaxShare, hz]

/-- Witness for C1: the amended characterization instantiated on the
one-feature sample collection, where the observed maximum is `1/2 ≠ 0`. -/
theorem computeMaxShare_characterization_witness :
    observedMaxShare [sampleFeature] "c1" ≠ 0
  ∧ computeMaxShare [sampleFeature] "c1"
      = observedMaxShare [sampleFeature] "c1" :=
  ⟨by rw [observedMaxShare_sample]; norm_num,
    (computeMaxShare_characterization [sampleFeature] "c1").1
      (by rw [observedMaxShare_sample]; norm_num)⟩

/-! ### Match predicates, defaults, and the viewport controller -/

/-- Claim **C7**: the match predicate used by the viewport controller
(`MapZoomController`) is equal to the match predicate used by the renderer's
style policy (`getStyle`): municipality selections compare province and
municipality, barangay selections additionally compare the barangay. -/
theorem match_predicates_agree (props : BarangayProperties)
    (sel : SearchResult) : styleMatch props sel = zoomMatch props sel := rfl

/-- Claim **C9**: the statistic accessor returns `0` (not an error) when the
per-candidate vote property is absent, and the share is `0` (not an error,
no division by zero) when `actualVoters` is `0`. -/
theorem stat_share_defaults (props : BarangayProperties)
    (candidateId : String) :
    (props.votes.lookup ("v_" ++ candidateId) = none →
      statFor props candidateId = 0)
  ∧ (props.av = 0 → shareFor props candidateId = 0) := by
  constructor
  · intro h; rw [statFor, h]; rfl
  · intro h
    rw [shareFor, if_neg (by rw [h]; exact lt_irrefl 0)]

/-- Witness for C9 at a record with no vote fields and zero actual voters. -/
theorem stat_share_defaults_witness :
    (zeroProps.votes.lookup ("v_" ++ "c1") = none ∧ statFor zeroProps "c1" = 0)
  ∧ (zeroProps.av = 0 ∧ shareFor zeroProps "c1" = 0) :=
  ⟨⟨by decide, (stat_share_defaults zeroProps "c1").1 (by decide)⟩,
    ⟨by decide, (stat_share_defaults zeroProps "c1").2 (by decide)⟩⟩

theorem boundsStep_isSome (sel : SearchResult) (acc : Option BBox)
    (f : Feature) :
    (boundsStep sel acc f).isSome = true ↔
      acc.isSome = true
        ∨ (zoomMatch f.properties sel = true ∧ f.geometry.isSome = true) := by
  cases hm : zoomMatch f.properties sel <;> cases hg : f.geometry <;>
    simp [boundsStep, hm, hg]

theorem foldl_boundsStep_isSome (sel : SearchResult) (fs : List Feature) :
    ∀ acc : Option BBox,
      ((fs.foldl (boundsStep sel) acc).isSome = true ↔
        acc.isSome = true
          ∨ ∃ f ∈ fs, zoomMatch f.properties sel = true
              ∧ f.geometry.isSome = true) := by
  induction fs with
  | nil => intro acc; simp
  | cons g gs ih =>
      intro acc
      rw [List.foldl_cons, ih, boundsStep_isSome]
      constructor
      · rintro ((h | h) | ⟨f, hf, hp⟩)
        · exact Or.inl h
        · exact Or.inr ⟨g, List.mem_cons_self g gs, h⟩
        · exact Or.inr ⟨f, List.mem_cons_of_mem g hf, hp⟩
      · rintro (h | ⟨f, hf, hp⟩)
        · exact Or.inl (Or.inl h)
        · rcases List.mem_cons.mp hf with rfl | hmem
          · exact Or.inl (Or.inr hp)
          · exact Or.inr ⟨f, hmem, hp⟩

theorem selectionBounds_isSome_iff (fs : List Feature) (sel : SearchResult) :
    (selectionBounds fs sel).isSome = true ↔
      ∃ f ∈ fs, zoomMatch f.properties sel = true
        ∧ f.geometry.isSome = true := by
  rw [selectionBounds, foldl_boundsStep_isSome sel fs none]
  simp

/-- Claim **C8**: a viewport-fit instruction (with padding `[40, 40]` and maximum
zoom `16`) is issued if and only if at least one feature matching the
selection contributes a valid geometric bound to the bounds union; when no
feature matches, no viewport change occurs and no error is signaled. -/
theorem zoomInstruction_iff (fs : List Feature) (sel : SearchResult) :
    ((zoomInstruction fs sel).isSome = true ↔
      ∃ f ∈ fs, zoomMatch f.properties sel = true ∧ f.geometry.isSome = true)
  ∧ ((∀ f ∈ fs, zoomMatch f.properties sel = false) →
      zoomInstruction fs sel = none)
  ∧ (∀ b padx pady z, zoomInstruction fs sel = some (b, padx, pady, z) →
      padx = 40 ∧ pady = 40 ∧ z = 16) := by
  have hsome : (zoomInstruction fs sel).isSome
      = (selectionBounds fs sel).isSome := by
    unfold zoomInstruction
    cases selectionBounds fs sel <;> rfl
  refine ⟨by rw [hsome]; exact selectionBounds_isSome_iff fs sel, ?_, ?_⟩
  · intro h
    cases hz : zoomInstruction fs sel with
    | none => rfl
    | some v =>
        exfalso
        have hv : (zoomInstruction fs sel).isSome = true := by
          rw [hz]; rfl
        rw [hsome, selectionBounds_isSome_iff] at hv
        obtain ⟨f, hf, hm, -⟩ := hv
        rw [h f hf] at hm
        exact Bool.false_ne_true hm
  · intro b padx pady z hz
    unfold zoomInstruction at hz
    cases hb : selectionBounds fs sel with
    | none => rw [hb] at hz; exact absurd hz (by simp)
    | some u =>
        rw [hb] at hz
        have h := Option.some_inj.mp hz
        rw [Prod.ext_iff, Prod.ext_iff, Prod.ext_iff] at h
        exact ⟨h.2.1.symm, h.2.2.1.symm, h.2.2.2.symm⟩

/-- Witness for C8: on the sample collection, a selection matching no
feature yields no viewport instruction. -/
theorem zoomInstruction_iff_witness :
    (∀ f ∈ [geoFeature], zoomMatch f.properties noMatchSel = false)
  ∧ zoomInstruction [geoFeature] noMatchSel = none :=
  ⟨by decide, (zoomInstruction_iff [geoFeature] noMatchSel).2.1 (by decide)⟩

/-- Claim **C10**: for a collection with nonnegative vote counts, every feature's
normalized value `share / maxShare` (with `maxShare` computed by
`computeMaxShare` from that same collection and candidate) lies in `[0, 1]`,
so the `Math.min(·, 1)` clamp inside the fill-color functions never alters
it — hence `Math.sqrt` always receives a nonnegative argument. -/
theorem normalized_in_unit_interval (fs : List Feature) (candidateId : String)
    (hnn : ∀ f ∈ fs, ∀ p ∈ f.properties.votes, 0 ≤ p.2) :
    ∀ f ∈ fs,
      0 ≤ normalizedFor (computeMaxShare fs candidateId) f.properties
            candidateId
    ∧ normalizedFor (computeMaxShare fs candidateId) f.properties candidateId
        ≤ 1
    ∧ min (normalizedFor (computeMaxShare fs candidateId) f.properties
            candidateId) 1
        = normalizedFor (computeMaxShare fs candidateId) f.properties
            candidateId := by
  intro f hf
  have hs0 : 0 ≤ shareFor f.properties candidateId :=
    shareFor_nonneg _ _ (hnn f hf)
  have hsM : shareFor f.properties candidateId
      ≤ observedMaxShare fs candidateId :=
    shareFor_le_observedMaxShare fs candidateId f hf
  have hobs0 : 0 ≤ observedMaxShare fs candidateId :=
    observedMaxShare_nonneg fs candidateId
  by_cases hz : observedMaxShare fs candidateId = 0
  · have hcm : computeMaxShare fs candidateId = 1 := by
      simp [computeMaxShare, hz]
    have hshare : shareFor f.properties candidateId = 0 :=
      le_antisymm (hz ▸ hsM) hs0
    have hn : normalizedFor (computeMaxShare fs candidateId) f.properties
        candidateId = 0 := by
      rw [hcm, normalizedFor, if_pos one_pos, hshare, zero_div]
    rw [hn]
    norm_num
  · have hpos : 0 < observedMaxShare fs candidateId :=
      lt_of_le_of_ne hobs0 (Ne.symm hz)
    have hcm : computeMaxShare fs candidateId
        = observedMaxShare fs candidateId := by
      simp [computeMaxShare, hz]
    have hn : normalizedFor (computeMaxShare fs candidateId) f.properties
        candidateId
        = shareFor f.properties candidateId
            / observedMaxShare fs candidateId := by
      rw [hcm, normalizedFor, if_pos hpos]
    rw [hn]
    have h1 : shareFor f.properties candidateId
        / observedMaxShare fs candidateId ≤ 1 :=
      div_le_one_of_le₀ hsM hobs0
    exact ⟨div_nonneg hs0 hobs0, h1, min_eq_left h1⟩

/-- Witness for C10 on the one-feature sample collection, whose normalized
value is exactly `1`. -/
theorem normalized_in_unit_interval_witness :
    0 ≤ normalizedFor (computeMaxShare [sampleFeature] "c1")
          sampleFeature.properties "c1"
  ∧ normalizedFor (computeMaxShare [sampleFeature] "c1")
        sampleFeature.properties "c1" ≤ 1
  ∧ min (normalizedFor (computeMaxShare [sampleFeature] "c1")
          sampleFeature.properties "c1") 1
      = normalizedFor (computeMaxShare [sampleFeature] "c1")
          sampleFeature.properties "c1" :=
  normalized_in_unit_interval [sampleFeature] "c1" (by decide)
    sampleFeature (by decide)

/-! ### The search query -/

theorem isSubOf_iff (t s : List Char) :
    isSubOf t s = true ↔ ∃ l r, s = l ++ t ++ r := by
  induction s with
  | nil =>
      rw [isSubOf, List.isEmpty_iff]
      constructor
      · rintro rfl
        exact ⟨[], [], rfl⟩
      · rintro ⟨l, r, h⟩
        have h2 := h.symm
        rw [List.append_assoc, List.append_eq_nil] at h2
        rw [List.append_eq_nil] at h2
        exact h2.2.1
  | cons c cs ih =>
      rw [isSubOf, Bool.or_eq_true, ih, List.isPrefixOf_iff_prefix]
      constructor
      · rintro (hpre | ⟨l, r, rfl⟩)
        · obtain ⟨r, hr⟩ := hpre
          exact ⟨[], r, by simpa using hr.symm⟩
        · exact ⟨c :: l, r, rfl⟩
      · rintro ⟨l, r, h⟩
        cases l with
        | nil =>
            left
            exact ⟨r, by simpa using h.symm⟩
        | cons x xs =>
            right
            simp only [List.cons_append, List.cons.injEq] at h
            exact ⟨xs, r, h.2⟩

/-- Claim **C3**: `query` lowercases and trims the text, splits it on whitespace
into tokens, and returns exactly those index entries whose label contains
every token as a substring, in index order, truncated to the first 50
matches; an empty or whitespace-only text returns the empty sequence. -/
theorem query_spec (index : List SearchResult) (text : String) :
    (trimStr text = "" → query index text = [])
  ∧ (query index text).Sublist index
  ∧ (query index text).length ≤ 50
  ∧ (∀ e ∈ query index text, entryMatches (tokensOf text) e = true)
  ∧ (∀ e ∈ query index text, ∀ t ∈ tokensOf text,
      ∃ l r, (toLowerStr e.label).data = l ++ t.data ++ r)
  ∧ (∀ e ∈ index, entryMatches (tokensOf text) e = true →
      trimStr text ≠ "" →
      (index.filter (entryMatches (tokensOf text))).length ≤ 50 →
      e ∈ query index text)
  ∧ (trimStr text ≠ "" →
      query index text ++ (index.filter (entryMatches (tokensOf text))).drop 50
        = index.filter (entryMatches (tokensOf text)))
  ∧ (trimStr text ≠ "" →
      (query index text).length
        = min 50 (index.filter (entryMatches (tokensOf text))).length) := by
  by_cases h : trimStr text = ""
  · rw [query, if_pos h]
    refine ⟨fun _ => rfl, List.nil_sublist index, by simp, by simp, by simp,
      fun e _ _ habs _ => absurd h habs, fun habs => absurd h habs,
      fun habs => absurd h habs⟩
  · have hq : query index text
        = (index.filter (entryMatches (tokensOf text))).take 50 := by
      rw [query, if_neg h]
    refine ⟨fun habs => absurd habs h, ?_, ?_, ?_, ?_, ?_, ?_, ?_⟩
    · rw [hq]
      exact (List.take_sublist _ _).trans (List.filter_sublist _)
    · rw [hq, List.length_take]
      exact min_le_left _ _
    · intro e he
      rw [hq] at he
      exact (List.mem_filter.mp (List.mem_of_mem_take he)).2
    · intro e he t ht
      rw [hq] at he
      have hm := (List.mem_filter.mp (List.mem_of_mem_take he)).2
      rw [entryMatches, List.all_eq_true] at hm
      exact (isSubOf_iff t.data (toLowerStr e.label).data).mp (hm t ht)
    · intro e hmem hmatch _ hlen
      rw [hq, List.take_of_length_le hlen]
      exact List.mem_filter.mpr ⟨hmem, hmatch⟩
    · intro _
      rw [hq]
      exact List.take_append_drop 50 _
    · intro _
      rw [hq, List.length_take]

/-- Witness for C3: the concrete query `"Angeles"` over a one-entry index
returns that entry, and the returned sequence is the prefix of the filtered
match list. -/
theorem query_spec_witness :
    entryMatches (tokensOf "Angeles") sampleSel = true
  ∧ sampleSel ∈ query [sampleSel] "Angeles"
  ∧ query [sampleSel] "Angeles"
        ++ ([sampleSel].filter (entryMatches (tokensOf "Angeles"))).drop 50
      = [sampleSel].filter (entryMatches (tokensOf "Angeles")) :=
  ⟨by decide,
    (query_spec [sampleSel] "Angeles").2.2.2.2.2.1 sampleSel (by decide)
      (by decide) (by decide) (by decide),
    (query_spec [sampleSel] "Angeles").2.2.2.2.2.2.1 (by decide)⟩

/-! ### The search index build -/

theorem entryKey_mkMuni (props : BarangayProperties) :
    entryKey (mkMuni props) = muniKey props := rfl

theorem collectMunis_from_features (fs : List Feature) :
    ∀ seen, ∀ e ∈ collectMunis seen fs, ∃ f ∈ fs, e = mkMuni f.properties := by
  induction fs with
  | nil => intro seen e he; exact absurd he (List.not_mem_nil e)
  | cons g gs ih =>
      intro seen e he
      rw [collectMunis] at he
      split_ifs at he with hk
      · obtain ⟨f, hf, hef⟩ := ih seen e he
        exact ⟨f, List.mem_cons_of_mem g hf, hef⟩
      · rcases List.mem_cons.mp he with rfl | hmem
        · exact ⟨g, List.mem_cons_self g gs, rfl⟩
        · obtain ⟨f, hf, hef⟩ := ih _ e hmem
          exact ⟨f, List.mem_cons_of_mem g hf, hef⟩

theorem collectMunis_type (fs : List Feature) :
    ∀ seen, ∀ e ∈ collectMunis seen fs,
      e.type = EntryType.municipality := by
  intro seen e he
  obtain ⟨f, -, rfl⟩ := collectMunis_from_features fs seen e he
  rfl

theorem collectMunis_keys (fs : List Feature) :
    ∀ seen, (∀ e ∈ collectMunis seen fs, entryKey e ∉ seen)
      ∧ ((collectMunis seen fs).map entryKey).Nodup := by
  induction fs with
  | nil =>
      intro seen
      exact ⟨fun e he => absurd he (List.not_mem_nil e), by simp [collectMunis]⟩
  | cons g gs ih =>
      intro seen
      by_cases hk : muniKey g.properties ∈ seen
      · constructor
        · intro e he
          rw [collectMunis, if_pos hk] at he
          exact (ih seen).1 e he
        · rw [collectMunis, if_pos hk]
          exact (ih seen).2
      · constructor
        · intro e he
          rw [collectMunis, if_neg hk] at he
          rcases List.mem_cons.mp he with rfl | hmem
          · rw [entryKey_mkMuni]; exact hk
          · have h2 := (ih (muniKey g.properties :: seen)).1 e hmem
            exact fun hin => h2 (List.mem_cons_of_mem _ hin)
        · rw [collectMunis, if_neg hk, List.map_cons, List.nodup_cons]
          constructor
          · rw [entryKey_mkMuni]
            intro hin
            obtain ⟨e, hmem, hkey⟩ := List.mem_map.mp hin
            have h2 := (ih (muniKey g.properties :: seen)).1 e hmem
            exact h2 (hkey ▸ List.mem_cons_self _ _)
          · exact (ih _).2

theorem collectMunis_covers (fs : List Feature) :
    ∀ seen, ∀ f ∈ fs, muniKey f.properties ∉ seen →
      ∃ e ∈ collectMunis seen fs, entryKey e = muniKey f.properties := by
  induction fs with
  | nil => intro seen f hf; exact absurd hf (List.not_mem_nil f)
  | cons g gs ih =>
      intro seen f hf hnot
      by_cases hk : muniKey g.properties ∈ seen
      · rw [collectMunis, if_pos hk]
        rcases List.mem_cons.mp hf with rfl | hmem
        · exact absurd hk hnot
        · exact ih seen f hmem hnot
      · rw [collectMunis, if_neg hk]
        rcases List.mem_cons.mp hf with rfl | hmem
        · exact ⟨mkMuni f.properties, List.mem_cons_self _ _,
            entryKey_mkMuni _⟩
        · by_cases hkey : muniKey f.properties = muniKey g.properties
          · exact ⟨mkMuni g.properties, List.mem_cons_self _ _,
              by rw [entryKey_mkMuni, hkey]⟩
          · have hn : muniKey f.properties
                ∉ muniKey g.properties :: seen := by
              intro hin
              rcases List.mem_cons.mp hin with h | h
              · exact hkey h
              · exact hnot h
            obtain ⟨e, hmem2, hkey2⟩ :=
              ih (muniKey g.properties :: seen) f hmem hn
            exact ⟨e, List.mem_cons_of_mem _ hmem2, hkey2⟩

theorem labelLe_trans (a b c : SearchResult) :
    labelLe a b = true → labelLe b c = true → labelLe a c = true := by
  simp only [labelLe, decide_eq_true_eq]
  exact le_trans

theorem labelLe_total (a b : SearchResult) :
    (labelLe a b || labelLe b a) = true := by
  simp only [labelLe, Bool.or_eq_true, decide_eq_true_eq]
  exact le_total a.label b.label

theorem sortByLabel_perm (l : List SearchResult) : (sortByLabel l).Perm l :=
  List.mergeSort_perm l labelLe

theorem sortByLabel_pairwise (l : List SearchResult) :
    (sortByLabel l).Pairwise (fun a b => a.label ≤ b.label) := by
  have h := List.sorted_mergeSort labelLe_trans labelLe_total l
  exact h.imp fun hab => by simpa only [labelLe, decide_eq_true_eq] using hab

/-- Claim **C4**: the built search index decomposes as the deduplicated
municipality entries sorted lexicographically by label, followed by the
one-per-feature barangay entries sorted lexicographically by label — so
every administrative-unit entry precedes every leaf entry regardless of
labels; municipality entries are deduplicated by the `p|m` key
(first-seen-wins), cover every feature's municipality, and each originates
from some feature of the collection. -/
theorem searchIndex_build_spec (fs : List Feature) :
    ∃ ms ls, buildIndex fs = ms ++ ls
  ∧ (∀ e ∈ ms, e.type = EntryType.municipality)
  ∧ (∀ e ∈ ls, e.type = EntryType.barangay)
  ∧ ms.Pairwise (fun a b => a.label ≤ b.label)
  ∧ ls.Pairwise (fun a b => a.label ≤ b.label)
  ∧ ls.Perm (fs.map fun f => mkLeaf f.properties)
  ∧ (ms.map entryKey).Nodup
  ∧ (∀ f ∈ fs, ∃ e ∈ ms, entryKey e = muniKey f.properties)
  ∧ (∀ e ∈ ms, ∃ f ∈ fs, e = mkMuni f.properties) := by
  cases fs with
  | nil =>
      exact ⟨[], [], by simp [buildIndex], by simp, by simp,
        List.Pairwise.nil, List.Pairwise.nil, by simp, by simp, by simp,
        by simp⟩
  | cons g gs =>
      refine ⟨sortByLabel (collectMunis [] (g :: gs)),
        sortByLabel ((g :: gs).map fun f => mkLeaf f.properties),
        by simp [buildIndex], ?_, ?_, sortByLabel_pairwise _,
        sortByLabel_pairwise _, sortByLabel_perm _, ?_, ?_, ?_⟩
      · intro e he
        exact collectMunis_type _ [] e ((sortByLabel_perm _).mem_iff.mp he)
      · intro e he
        obtain ⟨f, -, rfl⟩ :=
          List.mem_map.mp ((sortByLabel_perm _).mem_iff.mp he)
        rfl
      · exact ((sortByLabel_perm _).map entryKey).nodup_iff.mpr
          (collectMunis_keys (g :: gs) []).2
      · intro f hf
        obtain ⟨e, hmem, hkey⟩ :=
          collectMunis_covers (g :: gs) [] f hf (List.not_mem_nil _)
        exact ⟨e, (sortByLabel_perm _).mem_iff.mpr hmem, hkey⟩
      · intro e he
        exact collectMunis_from_features (g :: gs) [] e
          ((sortByLabel_perm _).mem_iff.mp he)

/-- Witness for C4: the decomposition instantiated on the concrete
one-feature sample collection. -/
theorem searchIndex_build_spec_witness :
    ∃ ms ls, buildIndex [sampleFeature] = ms ++ ls
  ∧ (∀ e ∈ ms, e.type = EntryType.municipality)
  ∧ (∀ e ∈ ls, e.type = EntryType.barangay)
  ∧ ms.Pairwise (fun a b => a.label ≤ b.label)
  ∧ ls.Pairwise (fun a b => a.label ≤ b.label)
  ∧ ls.Perm ([sampleFeature].map fun f => mkLeaf f.properties)
  ∧ (ms.map entryKey).Nodup
  ∧ (∀ f ∈ [sampleFeature], ∃ e ∈ ms, entryKey e = muniKey f.properties)
  ∧ (∀ e ∈ ms, ∃ f ∈ [sampleFeature], e = mkMuni f.properties) :=
  searchIndex_build_spec [sampleFeature]

/-! ### The color scale -/

theorem round_le_round_of_le {x y : ℝ} (h : x ≤ y) : round x ≤ round y := by
  rw [round_eq, round_eq]
  exact Int.floor_le_floor (by linarith)

theorem fillFactor_mono {t₁ t₂ : ℝ} (n : ℕ) (h : t₁ ≤ t₂) :
    round ((n : ℝ) * (8 / 100 + t₁ * (1 - 8 / 100)))
      ≤ round ((n : ℝ) * (8 / 100 + t₂ * (1 - 8 / 100))) := by
  apply round_le_round_of_le
  have hn : (0 : ℝ) ≤ (n : ℝ) := Nat.cast_nonneg n
  nlinarith

/-- Claim **C5**: on `[0, 1]`, the single-hue fill color has channels
`round(channel * (0.08 + sqrt(clamp(v, 0, 1)) * 0.92))`; at `v = 0` the
factor is exactly `0.08`, and at `v = 1` the output equals the base color. -/
theorem getFillColor_formula (v : ℝ) (h0 : 0 ≤ v) (h1 : v ≤ 1)
    (c : ℕ × ℕ × ℕ) :
    getFillColor v c = specSingleHue v c
  ∧ getFillColor 0 c
      = (round ((c.1 : ℝ) * (8 / 100)), round ((c.2.1 : ℝ) * (8 / 100)),
          round ((c.2.2 : ℝ) * (8 / 100)))
  ∧ getFillColor 1 c = ((c.1 : ℤ), (c.2.1 : ℤ), (c.2.2 : ℤ)) := by
  refine ⟨?_, ?_, ?_⟩
  · have hmax : max 0 (min v 1) = min v 1 :=
      max_eq_right (le_min h0 zero_le_one)
    simp only [getFillColor, specSingleHue, hmax]
    norm_num
  · have hm : min (0 : ℝ) 1 = 0 := min_eq_left zero_le_one
    simp only [getFillColor, hm, Real.sqrt_zero]
    norm_num
  · have hm : min (1 : ℝ) 1 = 1 := min_self 1
    simp only [getFillColor, hm, Real.sqrt_one]
    norm_num [round_natCast]

/-- Witness for C5 at `v = 1` with the fallback base color `(251, 146, 60)`:
the output is the base color itself. -/
theorem getFillColor_formula_witness :
    (0 : ℝ) ≤ 1 ∧ (1 : ℝ) ≤ 1
  ∧ getFillColor 1 (251, 146, 60) = ((251 : ℤ), (146 : ℤ), (60 : ℤ)) :=
  ⟨by norm_num, le_refl 1,
    (getFillColor_formula 1 (by norm_num) (le_refl 1) (251, 146, 60)).2.2⟩

theorem getFillColor_zero (c : ℕ × ℕ × ℕ) :
    getFillColor 0 c
      = (round ((c.1 : ℝ) * (8 / 100)), round ((c.2.1 : ℝ) * (8 / 100)),
          round ((c.2.2 : ℝ) * (8 / 100))) := by
  have hm : min (0 : ℝ) 1 = 0 := min_eq_left zero_le_one
  simp only [getFillColor, hm, Real.sqrt_zero]
  norm_num

theorem getFillColor_one (c : ℕ × ℕ × ℕ) :
    getFillColor 1 c = ((c.1 : ℤ), (c.2.1 : ℤ), (c.2.2 : ℤ)) := by
  have hm : min (1 : ℝ) 1 = 1 := min_self 1
  simp only [getFillColor, hm, Real.sqrt_one]
  norm_num [round_natCast]

theorem sqrt_nine_sixteenths : Real.sqrt (min (9/16 : ℝ) 1) = 3/4 := by
  rw [min_eq_left (by norm_num), show (9/16 : ℝ) = (3/4)^2 by norm_num,
    Real.sqrt_sq (by norm_num)]

theorem sqrt_81_hundredths : Real.sqrt (min (81/100 : ℝ) 1) = 9/10 := by
  rw [min_eq_left (by norm_num), show (81/100 : ℝ) = (9/10)^2 by norm_num,
    Real.sqrt_sq (by norm_num)]

theorem findStops_at_zero :
    findStops (0 : ℝ) MULTI_HUE_STOPS
      = some (⟨0, 10, 10, 30⟩, ⟨3/20, 15, 60, 90⟩) := by
  rw [MULTI_HUE_STOPS]
  norm_num [findStops]

theorem findStops_at_34 :
    findStops (3/4 : ℝ) MULTI_HUE_STOPS
      = some (⟨3/5, 160, 200, 40⟩, ⟨3/4, 240, 180, 30⟩) := by
  rw [MULTI_HUE_STOPS]
  norm_num [findStops]

theorem findStops_at_910 :
    findStops (9/10 : ℝ) MULTI_HUE_STOPS
      = some (⟨3/4, 240, 180, 30⟩, ⟨9/10, 250, 100, 40⟩) := by
  rw [MULTI_HUE_STOPS]
  norm_num [findStops]

theorem findStops_at_one :
    findStops (1 : ℝ) MULTI_HUE_STOPS
      = some (⟨9/10, 250, 100, 40⟩, ⟨1, 255, 240, 220⟩) := by
  rw [MULTI_HUE_STOPS]
  norm_num [findStops]

theorem multiHue_at_zero : getMultiHueFillColor 0 = (10, 10, 30) := by
  have hs : Real.sqrt (min (0 : ℝ) 1) = 0 := by
    rw [min_eq_left zero_le_one, Real.sqrt_zero]
  simp only [getMultiHueFillColor, hs, findStops_at_zero, Option.getD_some]
  norm_num

theorem multiHue_at_one : getMultiHueFillColor 1 = (255, 240, 220) := by
  have hs : Real.sqrt (min (1 : ℝ) 1) = 1 := by
    rw [min_self, Real.sqrt_one]
  simp only [getMultiHueFillColor, hs, findStops_at_one, Option.getD_some]
  norm_num

theorem multiHue_at_916 : getMultiHueFillColor (9/16) = (240, 180, 30) := by
  simp only [getMultiHueFillColor, sqrt_nine_sixteenths, findStops_at_34,
    Option.getD_some]
  norm_num

theorem multiHue_at_81100 :
    getMultiHueFillColor (81/100) = (250, 100, 40) := by
  simp only [getMultiHueFillColor, sqrt_81_hundredths, findStops_at_910,
    Option.getD_some]
  norm_num

theorem getFillColor_luminance_mono (c : ℕ × ℕ × ℕ) (v₁ v₂ : ℝ)
    (h12 : v₁ ≤ v₂) :
    luminance (getFillColor v₁ c) ≤ luminance (getFillColor v₂ c) := by
  have ht : Real.sqrt (min v₁ 1) ≤ Real.sqrt (min v₂ 1) :=
    Real.sqrt_le_sqrt (min_le_min h12 le_rfl)
  have hr := fillFactor_mono c.1 ht
  have hg := fillFactor_mono c.2.1 ht
  have hb := fillFactor_mono c.2.2 ht
  simp only [getFillColor, luminance]
  rw [div_le_div_iff_of_pos_right (by norm_num : (0:ℚ) < 1000)]
  have hsum :
      (299 * round ((c.1 : ℝ) * (8/100 + Real.sqrt (min v₁ 1) * (1 - 8/100)))
        + 587 * round ((c.2.1 : ℝ)
            * (8/100 + Real.sqrt (min v₁ 1) * (1 - 8/100)))
        + 114 * round ((c.2.2 : ℝ)
            * (8/100 + Real.sqrt (min v₁ 1) * (1 - 8/100))) : ℤ)
      ≤ 299 * round ((c.1 : ℝ) * (8/100 + Real.sqrt (min v₂ 1) * (1 - 8/100)))
        + 587 * round ((c.2.1 : ℝ)
            * (8/100 + Real.sqrt (min v₂ 1) * (1 - 8/100)))
        + 114 * round ((c.2.2 : ℝ)
            * (8/100 + Real.sqrt (min v₂ 1) * (1 - 8/100))) := by
    have h1 := mul_le_mul_of_nonneg_left hr (by norm_num : (0:ℤ) ≤ 299)
    have h2 := mul_le_mul_of_nonneg_left hg (by norm_num : (0:ℤ) ≤ 587)
    have h3 := mul_le_mul_of_nonneg_left hb (by norm_num : (0:ℤ) ≤ 114)
    linarith
  exact_mod_cast hsum

/-- Claim **C2** (counterexample): in multi-hue mode, brightness is not monotone
in the normalized value: between `v = 9/16` and `v = 81/100` (both in
`[0, 1]`, whose square roots land exactly on the stops `0.75` and `0.9`)
the luminance drops from `180.84` to `138.01`. -/
theorem multiHue_luminance_not_monotone :
    (0 : ℝ) ≤ 9/16 ∧ (9/16 : ℝ) ≤ 81/100 ∧ (81/100 : ℝ) ≤ 1
  ∧ getMultiHueFillColor (9/16) = (240, 180, 30)
  ∧ getMultiHueFillColor (81/100) = (250, 100, 40)
  ∧ luminance (getMultiHueFillColor (81/100))
      < luminance (getMultiHueFillColor (9/16)) := by
  refine ⟨by norm_num, by norm_num, by norm_num, multiHue_at_916,
    multiHue_at_81100, ?_⟩
  rw [multiHue_at_916, multiHue_at_81100]
  norm_num [luminance]

/-- Claim **C2** (amended): in single-hue mode with any base color, the fill color
is monotonically non-decreasing in perceptual luminance
(`0.299 R + 0.587 G + 0.114 B`) as the normalized value increases over
`[0, 1]`, and at the boundaries both modes yield their defined endpoint
colors — single-hue: the 8%-scaled base color at `v = 0` and the base color
at `v = 1`; multi-hue: the first stop `(10, 10, 30)` at `v = 0` and the
last stop `(255, 240, 220)` at `v = 1`. (Monotonicity does not extend to
the multi-hue mode.) -/
theorem colorScale_brightness (c : ℕ × ℕ × ℕ) (v₁ v₂ : ℝ) (h0 : 0 ≤ v₁)
    (h12 : v₁ ≤ v₂) (h1 : v₂ ≤ 1) :
    luminance (getFillColor v₁ c) ≤ luminance (getFillColor v₂ c)
  ∧ getFillColor 0 c
      = (round ((c.1 : ℝ) * (8 / 100)), round ((c.2.1 : ℝ) * (8 / 100)),
          round ((c.2.2 : ℝ) * (8 / 100)))
  ∧ getFillColor 1 c = ((c.1 : ℤ), (c.2.1 : ℤ), (c.2.2 : ℤ))
  ∧ getMultiHueFillColor 0 = (10, 10, 30)
  ∧ getMultiHueFillColor 1 = (255, 240, 220) :=
  ⟨getFillColor_luminance_mono c v₁ v₂ h12, getFillColor_zero c,
    getFillColor_one c, multiHue_at_zero, multiHue_at_one⟩

/-- Witness for C2 (amended) with the pure white base color over the full
range `v = 0` to `v = 1`. -/
theorem colorScale_brightness_witness :
    (0 : ℝ) ≤ 0 ∧ (0 : ℝ) ≤ 1 ∧ (1 : ℝ) ≤ 1
  ∧ luminance (getFillColor 0 (255, 255, 255))
      ≤ luminance (getFillColor 1 (255, 255, 255)) :=
  ⟨le_refl 0, by norm_num, le_refl 1,
    (colorScale_brightness (255, 255, 255) 0 1 (le_refl 0) (by norm_num)
      (le_refl 1)).1⟩

/-! ### The per-feature style policy -/

/-- Claim **C6**: the per-feature style follows the three-branch policy: with no
selection, the fill color comes from the color scale applied to the
normalized share, with fill opacity `0.85`, weight `0.3` and neutral border
`#222`; with a selection and a matching feature, fill opacity and border
weight are strictly higher and the border is bright white; with a selection
and a non-matching feature, fill opacity is strictly lower with a thin
border, while the fill color is still computed from the statistic exactly
as in the no-selection case. -/
theorem getStyle_policy (maxShare : ℚ) (candidateId : String)
    (baseColor : ℕ × ℕ × ℕ) (highContrast : Bool)
    (props : BarangayProperties) (sel : SearchResult) :
    (getStyle maxShare candidateId baseColor highContrast none
        props).fillOpacity = 17/20
  ∧ (getStyle maxShare candidateId baseColor highContrast none props).weight
      = 3/10
  ∧ (getStyle maxShare candidateId baseColor highContrast none props).color
      = "#222"
  ∧ (getStyle maxShare candidateId baseColor highContrast none
        props).fillColor
      = (if highContrast then
          getMultiHueFillColor
            ((normalizedFor maxShare props candidateId : ℚ) : ℝ)
        else
          getFillColor ((normalizedFor maxShare props candidateId : ℚ) : ℝ)
            baseColor)
  ∧ (styleMatch props sel = true →
      (getStyle maxShare candidateId baseColor highContrast (some sel)
          props).fillOpacity
        > (getStyle maxShare candidateId baseColor highContrast none
            props).fillOpacity
    ∧ (getStyle maxShare candidateId baseColor highContrast (some sel)
          props).weight
        > (getStyle maxShare candidateId baseColor highContrast none
            props).weight
    ∧ (getStyle maxShare candidateId baseColor highContrast (some sel)
          props).color = "#fff")
  ∧ (styleMatch props sel = false →
      (getStyle maxShare candidateId baseColor highContrast (some sel)
          props).fillOpacity
        < (getStyle maxShare candidateId baseColor highContrast none
            props).fillOpacity
    ∧ (getStyle maxShare candidateId baseColor highContrast (some sel)
          props).weight = 3/10
    ∧ (getStyle maxShare candidateId baseColor highContrast (some sel)
          props).fillColor
        = (getStyle maxShare candidateId baseColor highContrast none
            props).fillColor) := by
  refine ⟨rfl, rfl, rfl, rfl, ?_, ?_⟩
  · intro hm
    refine ⟨?_, ?_, ?_⟩
    · norm_num [getStyle, hm]
    · norm_num [getStyle, hm]
    · simp [getStyle, hm]
  · intro hm
    refine ⟨?_, ?_, ?_⟩
    · norm_num [getStyle, hm]
    · simp [getStyle, hm]
    · rfl

/-- Witness for C6: on the sample record, the matching selection strictly
raises the fill opacity over the no-selection style. -/
theorem getStyle_policy_witness :
    styleMatch sampleProps sampleSel = true
  ∧ (getStyle 1 "c1" (255, 0, 0) false (some sampleSel)
        sampleProps).fillOpacity
      > (getStyle 1 "c1" (255, 0, 0) false none sampleProps).fillOpacity :=
  ⟨by decide,
    ((getStyle_policy 1 "c1" (255, 0, 0) false sampleProps
        sampleSel).2.2.2.2.1 (by decide)).1⟩

end ElectionMap
